import Mathlib

/-!
Verification of the langrag-chat retrieval/indexing layer and streaming
citation protocol, shallowly embedded from `backend/app`.

Strings from the Python source are modelled as `List Char`; Python string
operations (`startswith`, `rstrip`, `endswith`, f-string concatenation) are
translated on that representation.
-/

namespace LangRag

/-- Python strings, modelled as lists of characters. -/
abbrev Str := List Char

/-- Convenience conversion from Lean string literals. -/
def str (s : String) : Str := s.toList

/-- Python truthiness of an optional string: `None` and `""` are falsy. -/
def truthy : Option Str → Bool
  | none => false
  | some s => !s.isEmpty

/-! ## Chunk identifiers (`vectorstore.py` lines 48-51 and 506-509) -/

/-- `chunk_id = f"{document_id}_chunk_{i}"` (`add_documents`, line 50). -/
def chunk_id (document_id : Str) (i : Nat) : Str :=
  document_id ++ str "_chunk_" ++ str (toString i)

/-- The pattern-based deletion scan predicate:
`str(chunk_id).startswith(f"{document_id}_chunk_")` (`delete_documents`, line 508). -/
def chunkPatternMatch (document_id : Str) (cid : Str) : Bool :=
  (document_id ++ str "_chunk_").isPrefixOf cid

/-! ## Ingestion records and batching (`vectorstore.py`, `add_documents`) -/

/-- Metadata attached to an incoming LangChain `Document`
(`doc.metadata` in `add_documents`); absent keys are `none`. -/
structure DocMeta where
  filename : Option Str
  file_type : Option Str
  upload_date : Option Str
deriving DecidableEq, Repr

/-- An incoming LangChain `Document`: page content plus metadata. -/
structure Doc where
  page_content : Str
  metadata : DocMeta
deriving DecidableEq, Repr

/-- A record prepared for `upsert_records` (`add_documents`, lines 64-70). -/
structure UpsertRecord where
  rid : Str
  text : Str
  filename : Str
  document_id : Str
  file_type : Str
deriving DecidableEq, Repr

/-- `doc.metadata.get(key, "unknown")` for a string key. -/
def getOrUnknown (v : Option Str) : Str := v.getD (str "unknown")

/-- The record-building loop of `add_documents` (lines 48-71): the `i`-th
document yields a record with `_id = chunk_id document_id i`. -/
def mkRecords (document_id : Str) (documents : List Doc) : List UpsertRecord :=
  documents.enum.map fun p =>
    { rid := chunk_id document_id p.1
      text := p.2.page_content
      filename := getOrUnknown p.2.metadata.filename
      document_id := document_id
      file_type := getOrUnknown p.2.metadata.file_type }

/-- `estimate_tokens(text) = int(len(text) * 1.5)` (line 106). -/
def estimate_tokens (text : Str) : Nat := 3 * text.length / 2

/-- `BATCH_SIZE = 20` (line 91). -/
def BATCH_SIZE : Nat := 20

/-- `MAX_BATCH_SIZE_BYTES = 1 * 1024 * 1024` (line 92). -/
def MAX_BATCH_SIZE_BYTES : Nat := 1 * 1024 * 1024

/-- `MAX_TOKENS_PER_BATCH = 20000` (line 93). -/
def MAX_TOKENS_PER_BATCH : Nat := 20000

/-- `record_size = len(record_id) + len(text)` (line 111). -/
def recordSize (r : UpsertRecord) : Nat := r.rid.length + r.text.length

/-- Total of `record_size` over a batch (the `current_batch_size` accumulator). -/
def batchBytes (b : List UpsertRecord) : Nat := (b.map recordSize).sum

/-- Total of `estimate_tokens` over a batch (the `current_batch_tokens` accumulator). -/
def batchTokens (b : List UpsertRecord) : Nat := (b.map (fun r => estimate_tokens r.text)).sum

/-- Tail of the batch-partition loop of `add_documents` (lines 108-132), with the
loop state (`batches`, `current_batch`, `current_batch_size`, `current_batch_tokens`)
made explicit. -/
def splitLoop : List UpsertRecord → List (List UpsertRecord) → List UpsertRecord →
    Nat → Nat → List (List UpsertRecord)
  | [], batches, cur, _, _ => batches ++ (if cur.isEmpty then [] else [cur])
  | r :: rs, batches, cur, sz, tk =>
    let rsz := recordSize r
    let rtk := estimate_tokens r.text
    if MAX_BATCH_SIZE_BYTES < sz + rsz ∨ BATCH_SIZE ≤ cur.length ∨
        MAX_TOKENS_PER_BATCH < tk + rtk then
      splitLoop rs (batches ++ if cur.isEmpty then [] else [cur]) [r] rsz rtk
    else
      splitLoop rs batches (cur ++ [r]) (sz + rsz) (tk + rtk)

/-- The batch-partition phase of `add_documents` (lines 96-132). -/
def splitBatches (records : List UpsertRecord) : List (List UpsertRecord) :=
  splitLoop records [] [] 0 0

/-- The per-batch guarantees the partition loop actually maintains. -/
def batchOk (b : List UpsertRecord) : Prop :=
  b ≠ [] ∧ b.length ≤ BATCH_SIZE ∧
    (2 ≤ b.length → batchBytes b ≤ MAX_BATCH_SIZE_BYTES ∧ batchTokens b ≤ MAX_TOKENS_PER_BATCH)

lemma batchBytes_append (b : List UpsertRecord) (r : UpsertRecord) :
    batchBytes (b ++ [r]) = batchBytes b + recordSize r := by
  simp [batchBytes]

lemma batchTokens_append (b : List UpsertRecord) (r : UpsertRecord) :
    batchTokens (b ++ [r]) = batchTokens b + estimate_tokens r.text := by
  simp [batchTokens]

lemma batchBytes_single (r : UpsertRecord) : batchBytes [r] = recordSize r := by
  simp [batchBytes]

lemma batchTokens_single (r : UpsertRecord) : batchTokens [r] = estimate_tokens r.text := by
  simp [batchTokens]

/-- Invariant of the batch-partition loop: emitted batches are non-empty, respect
the count ceiling always and the byte/token ceilings whenever they hold at least
two records, and concatenating all batches recovers exactly the input records. -/
lemma splitLoop_spec (rs : List UpsertRecord) :
    ∀ batches cur,
      (∀ b ∈ batches, batchOk b) →
      cur.length ≤ BATCH_SIZE →
      (2 ≤ cur.length →
        batchBytes cur ≤ MAX_BATCH_SIZE_BYTES ∧ batchTokens cur ≤ MAX_TOKENS_PER_BATCH) →
      (∀ b ∈ splitLoop rs batches cur (batchBytes cur) (batchTokens cur), batchOk b) ∧
      (splitLoop rs batches cur (batchBytes cur) (batchTokens cur)).flatten
        = batches.flatten ++ cur ++ rs := by
  induction rs with
  | nil =>
    intro batches cur hb hlen hceil
    by_cases hc : cur.isEmpty
    · rw [List.isEmpty_iff] at hc
      subst hc
      simp only [splitLoop, List.isEmpty_nil, if_pos rfl]
      exact ⟨by simpa using hb, by simp⟩
    · simp only [splitLoop, hc, if_neg hc]
      constructor
      · intro b hbmem
        rcases List.mem_append.1 hbmem with h | h
        · exact hb b h
        · rcases List.mem_singleton.1 h with rfl
          exact ⟨by simpa [List.isEmpty_iff] using hc, hlen, hceil⟩
      · simp
  | cons r rs ih =>
    intro batches cur hb hlen hceil
    simp only [splitLoop]
    by_cases hcond : MAX_BATCH_SIZE_BYTES < batchBytes cur + recordSize r ∨
        BATCH_SIZE ≤ cur.length ∨ MAX_TOKENS_PER_BATCH < batchTokens cur + estimate_tokens r.text
    · rw [if_pos hcond]
      have hb' : ∀ b ∈ batches ++ if cur.isEmpty then [] else [cur], batchOk b := by
        intro b hbmem
        rcases List.mem_append.1 hbmem with h | h
        · exact hb b h
        · by_cases hc : cur.isEmpty
          · simp [hc] at h
          · simp only [hc, if_neg hc] at h
            rcases List.mem_singleton.1 h with rfl
            exact ⟨by simpa [List.isEmpty_iff] using hc, hlen, hceil⟩
      have := ih (batches ++ if cur.isEmpty then [] else [cur]) [r] hb'
        (by simp [BATCH_SIZE]) (by simp)
      rw [batchBytes_single, batchTokens_single] at this
      refine ⟨this.1, ?_⟩
      rw [this.2]
      by_cases hc : cur.isEmpty
      · rw [List.isEmpty_iff] at hc
        subst hc
        simp
      · simp only [hc, if_neg hc, List.flatten_append]
        simp
    · rw [if_neg hcond]
      push_neg at hcond
      obtain ⟨h1, h2, h3⟩ := hcond
      have hlen' : (cur ++ [r]).length ≤ BATCH_SIZE := by
        simp only [List.length_append, List.length_singleton]
        omega
      have hceil' : 2 ≤ (cur ++ [r]).length →
          batchBytes (cur ++ [r]) ≤ MAX_BATCH_SIZE_BYTES ∧
          batchTokens (cur ++ [r]) ≤ MAX_TOKENS_PER_BATCH := by
        intro _
        rw [batchBytes_append, batchTokens_append]
        exact ⟨h1, h3⟩
      have := ih batches (cur ++ [r]) hb hlen' hceil'
      rw [batchBytes_append, batchTokens_append] at this
      refine ⟨this.1, ?_⟩
      rw [this.2]
      simp

/-- Specification of `splitBatches` obtained from the loop invariant. -/
lemma splitBatches_spec (records : List UpsertRecord) :
    (∀ b ∈ splitBatches records, batchOk b) ∧ (splitBatches records).flatten = records := by
  have := splitLoop_spec records [] [] (by simp) (by simp [BATCH_SIZE]) (by simp)
  simpa [splitBatches, batchBytes, batchTokens] using this

/-- A batch satisfying `batchOk` that contains a record breaking a byte or token
ceiling by itself must be the singleton batch of that record. -/
lemma batchOk_oversized_singleton {b : List UpsertRecord} {r : UpsertRecord}
    (hb : batchOk b) (hr : r ∈ b)
    (ho : MAX_BATCH_SIZE_BYTES < recordSize r ∨ MAX_TOKENS_PER_BATCH < estimate_tokens r.text) :
    b = [r] := by
  obtain ⟨hne, _, hceil⟩ := hb
  by_cases h2 : 2 ≤ b.length
  · exfalso
    obtain ⟨hbytes, htokens⟩ := hceil h2
    rcases ho with ho | ho
    · have : recordSize r ≤ batchBytes b :=
        List.single_le_sum (fun x _ => Nat.zero_le x) _ (List.mem_map_of_mem recordSize hr)
      omega
    · have : estimate_tokens r.text ≤ batchTokens b :=
        List.single_le_sum (fun x _ => Nat.zero_le x) _
          (List.mem_map_of_mem (fun r => estimate_tokens r.text) hr)
      omega
  · match b, hr with
    | [x], hr =>
      rcases List.mem_singleton.1 hr with rfl
      rfl
    | x :: y :: t, _ => simp at h2

/-- C2 counterexample input: a single record whose token estimate alone
(`int(20000 * 1.5) = 30000`) exceeds `MAX_TOKENS_PER_BATCH`. -/
def oversizedRecord : UpsertRecord :=
  { rid := []
    text := List.replicate 20000 'a'
    filename := str "unknown"
    document_id := str "d"
    file_type := str "unknown" }

/-- C2: the claim as stated is false — a record whose estimated tokens exceed
20,000 is placed alone in a batch whose estimated tokens are 30,000 > 20,000, so
not every produced batch satisfies the token ceiling. -/
theorem C2_counterexample :
    splitBatches [oversizedRecord] = [[oversizedRecord]] ∧
    MAX_TOKENS_PER_BATCH < batchTokens [oversizedRecord] := by
  have htok : estimate_tokens oversizedRecord.text = 30000 := by
    simp only [estimate_tokens, oversizedRecord]
    rw [List.length_replicate]
  have hlt : MAX_TOKENS_PER_BATCH < batchTokens [oversizedRecord] := by
    rw [batchTokens_single, htok]
    norm_num [MAX_TOKENS_PER_BATCH]
  refine ⟨?_, hlt⟩
  show splitLoop [oversizedRecord] [] [] 0 0 = [[oversizedRecord]]
  rw [batchTokens_single] at hlt
  simp only [splitLoop, Nat.zero_add]
  rw [if_pos (Or.inr (Or.inr hlt))]
  simp only [splitLoop, List.isEmpty_nil, List.isEmpty_cons]
  simp

/-- C2 (amended): for every input list of records, every produced batch holds at
most 20 records and is non-empty; every batch with at least two records also
satisfies the 1 MiB byte ceiling and the 20,000 estimated-token ceiling; the
batches concatenate back to the input, so no record is dropped; and a record
that alone exceeds the byte or token ceiling always sits in its own singleton
batch (which then exceeds that ceiling, contrary to the original claim). -/
theorem C2_batch_ceilings (records : List UpsertRecord) :
    (∀ b ∈ splitBatches records, b ≠ [] ∧ b.length ≤ 20) ∧
    (∀ b ∈ splitBatches records, 2 ≤ b.length →
      batchBytes b ≤ 1024 * 1024 ∧ batchTokens b ≤ 20000) ∧
    (splitBatches records).flatten = records ∧
    (∀ b ∈ splitBatches records, ∀ r ∈ b,
      1024 * 1024 < recordSize r ∨ 20000 < estimate_tokens r.text → b = [r]) := by
  obtain ⟨hok, hjoin⟩ := splitBatches_spec records
  refine ⟨?_, ?_, hjoin, ?_⟩
  · intro b hbmem
    obtain ⟨h1, h2, _⟩ := hok b hbmem
    exact ⟨h1, h2⟩
  · intro b hbmem h2
    obtain ⟨_, _, hceil⟩ := hok b hbmem
    simpa [MAX_BATCH_SIZE_BYTES, MAX_TOKENS_PER_BATCH] using hceil h2
  · intro b hbmem r hrmem ho
    exact batchOk_oversized_singleton (hok b hbmem) hrmem
      (by simpa [MAX_BATCH_SIZE_BYTES, MAX_TOKENS_PER_BATCH] using ho)

/-- A small concrete record used to instantiate hypotheses in witnesses. -/
def smallRecord : UpsertRecord :=
  { rid := str "d_chunk_0"
    text := str "hello"
    filename := str "a.txt"
    document_id := str "d"
    file_type := str "txt" }

/-- C2 witness: the amended theorem applied to a concrete one-record input,
with the batch-membership hypothesis discharged by evaluation. -/
theorem C2_batch_ceilings_witness :
    [smallRecord] ≠ [] ∧ [smallRecord].length ≤ 20 :=
  (C2_batch_ceilings [smallRecord]).1 [smallRecord] (by decide)

/-! ## C7: chunk id determinism and the pattern scan -/

lemma mkRecords_ids (document_id : Str) (documents : List Doc) :
    (mkRecords document_id documents).map UpsertRecord.rid
      = (List.range documents.length).map (chunk_id document_id) := by
  unfold mkRecords
  rw [List.map_map]
  have : (UpsertRecord.rid ∘ fun p : Nat × Doc =>
      ({ rid := chunk_id document_id p.1
         text := p.2.page_content
         filename := getOrUnknown p.2.metadata.filename
         document_id := document_id
         file_type := getOrUnknown p.2.metadata.file_type } : UpsertRecord))
      = (chunk_id document_id) ∘ Prod.fst := rfl
  rw [this, ← List.map_map, List.enum, List.enumFrom_map_fst, List.range_eq_range']

/-- C7 counterexample: the claim as stated is false — the pattern scan for
document id `"a"` also matches the first chunk of the distinct document id
`"a_chunk_0"`, a chunk of another document. -/
theorem C7_counterexample :
    chunkPatternMatch (str "a") (chunk_id (str "a_chunk_0") 0) = true ∧
    str "a_chunk_0" ≠ str "a" := by decide

/-- C7 (amended): the ids produced by the record-building loop of
`add_documents` are exactly `chunk_id document_id i = "{document_id}_chunk_{i}"`
for the 0-based positions `i`; the pattern scan matches every chunk id of the
given document; and for document ids of equal length (as with the fixed-width
UUID ids the system generates) the scan matches a chunk of another document id
if and only if the ids coincide — exactness can fail only for ids of unequal
length where one id extends the other's chunk prefix. -/
theorem C7_chunk_id_pattern :
    (∀ document_id documents,
      (mkRecords document_id documents).map UpsertRecord.rid
        = (List.range documents.length).map (chunk_id document_id)) ∧
    (∀ d i, chunkPatternMatch d (chunk_id d i) = true) ∧
    (∀ d d' j, d.length = d'.length →
      (chunkPatternMatch d (chunk_id d' j) = true ↔ d = d')) := by
  have hmatch : ∀ d i, chunkPatternMatch d (chunk_id d i) = true := by
    intro d i
    rw [chunkPatternMatch, List.isPrefixOf_iff_prefix, chunk_id]
    exact List.prefix_append _ _
  refine ⟨mkRecords_ids, hmatch, ?_⟩
  intro d d' j hlen
  constructor
  · intro h
    rw [chunkPatternMatch, List.isPrefixOf_iff_prefix] at h
    obtain ⟨t, ht⟩ := h
    rw [chunk_id, List.append_assoc, List.append_assoc] at ht
    exact List.append_inj_left ht hlen
  · rintro rfl
    exact hmatch d j

/-- C7 witness: the amended theorem at concrete document ids, discharging the
equal-length hypothesis by evaluation. -/
theorem C7_chunk_id_pattern_witness :
    chunkPatternMatch (str "ab") (chunk_id (str "ab") 3) = true ∧
    (chunkPatternMatch (str "ab") (chunk_id (str "cd") 3) = true ↔ str "ab" = str "cd") :=
  ⟨C7_chunk_id_pattern.2.1 (str "ab") 3,
   C7_chunk_id_pattern.2.2 (str "ab") (str "cd") 3 (by decide)⟩

/-! ## Streaming citation interleaver (`chain.py`, `stream_query`, lines 82-183) -/

/-- A retrieved source as produced by `_format_sources`:
`{"filename": ..., "content": ..., "document_id": ...}`. -/
structure Source where
  filename : Str
  content : Str
  document_id : Str
deriving DecidableEq, Repr

/-- Events yielded by `stream_query`: `{"type": "text", ...}` and
`{"type": "citation", ...}` dictionaries. -/
inductive StreamEvent where
  | text (content : Str)
  | citation (index : Nat) (filename : Str) (document_id : Str) (content : Str) (preview : Str)
deriving DecidableEq, Repr

/-- `source["content"][:200] + "..." if len(source["content"]) > 200 else source["content"]`. -/
def previewOf (content : Str) : Str :=
  if 200 < content.length then content.take 200 ++ str "..." else content

/-- The citation event built at lines 136-143 (and 176-183). -/
def mkCitation (idx : Nat) (s : Source) : StreamEvent :=
  .citation idx s.filename s.document_id s.content (previewOf s.content)

/-- `sentence_endings = ['.', '。', '!', '?', '！', '？']` (line 131). -/
def sentence_endings : List Char := ['.', '。', '!', '?', '！', '？']

/-- Python `sentence_buffer.rstrip()`: drop trailing whitespace. -/
def rstrip (s : Str) : Str := (s.reverse.dropWhile Char.isWhitespace).reverse

/-- `any(sentence_buffer.rstrip().endswith(e) for e in sentence_endings)`:
each ending is a single character, so this tests the last non-whitespace
character. -/
def endsWithSentenceEnding (s : Str) : Bool :=
  match (rstrip s).getLast? with
  | some c => sentence_endings.contains c
  | none => false

/-- The loop state of `stream_query`: `full_answer`, `citation_index`,
`sentence_buffer` (lines 110-112). -/
structure StreamState where
  full_answer : Str
  citation_index : Nat
  sentence_buffer : Str
deriving DecidableEq, Repr

/-- One iteration of the `async for chunk in self.llm.astream(...)` body
(lines 116-145): skip falsy content, emit the text event, then emit at most one
citation at a sentence boundary (`sources and citation_index < len(sources)`)
and clear the buffer. -/
def processChunk (sources : List Source) (st : StreamState) (content : Str) :
    List StreamEvent × StreamState :=
  if content.isEmpty then ([], st)
  else
    let full_answer := st.full_answer ++ content
    let buf := st.sentence_buffer ++ content
    if 10 < buf.length ∧ endsWithSentenceEnding buf = true then
      match sources[st.citation_index]? with
      | some s =>
        ([.text content, mkCitation st.citation_index s],
         ⟨full_answer, st.citation_index + 1, []⟩)
      | none => ([.text content], ⟨full_answer, st.citation_index, []⟩)
    else
      ([.text content], ⟨full_answer, st.citation_index, buf⟩)

/-- The whole generation loop of `stream_query` over a finite token stream. -/
def streamLoop (sources : List Source) : StreamState → List Str → List StreamEvent × StreamState
  | st, [] => ([], st)
  | st, c :: cs =>
    let p := processChunk sources st c
    let q := streamLoop sources p.2 cs
    (p.1 ++ q.1, q.2)

/-- The end-of-stream flush (lines 172-183):
`for idx in range(citation_index, len(sources))`. -/
def flushCitations (sources : List Source) (citation_index : Nat) : List StreamEvent :=
  (sources.enum.drop citation_index).map fun p => mkCitation p.1 p.2

/-- `stream_query` on the streaming (non-fallback) path, with retrieval and
`_format_sources` abstracted into the given source list and the token stream
given as a list of chunk contents. -/
def stream_query (sources : List Source) (chunks : List Str) (return_sources : Bool) :
    List StreamEvent :=
  let srcs := if return_sources then sources else []
  let p := streamLoop srcs ⟨[], 0, []⟩ chunks
  p.1 ++ (if return_sources ∧ srcs ≠ [] then flushCitations srcs p.2.citation_index else [])

/-- The index of a citation event, `none` on text events. -/
def citationIndex? : StreamEvent → Option Nat
  | .citation i _ _ _ _ => some i
  | _ => none

/-- Whether an event is a citation event. -/
def isCitation : StreamEvent → Bool
  | .citation _ _ _ _ _ => true
  | _ => false

lemma length_filter_isCitation (l : List StreamEvent) :
    (l.filter isCitation).length = (l.filterMap citationIndex?).length := by
  induction l with
  | nil => rfl
  | cons e t ih =>
    cases e <;> simp [List.filter, List.filterMap, isCitation, citationIndex?, ih]

lemma processChunk_cit (sources : List Source) (st : StreamState) (c : Str) :
    ((processChunk sources st c).1.filterMap citationIndex?
      = List.range' st.citation_index
          ((processChunk sources st c).2.citation_index - st.citation_index)) ∧
    ((processChunk sources st c).2.citation_index = st.citation_index ∨
      ((processChunk sources st c).2.citation_index = st.citation_index + 1 ∧
        st.citation_index < sources.length)) := by
  unfold processChunk
  by_cases hc : c.isEmpty
  · simp [hc]
  · simp only [hc, Bool.false_eq_true, if_false]
    by_cases hb : 10 < (st.sentence_buffer ++ c).length ∧
        endsWithSentenceEnding (st.sentence_buffer ++ c) = true
    · rw [if_pos hb]
      cases hs : sources[st.citation_index]? with
      | none => simp [List.filterMap, citationIndex?]
      | some s =>
        have hlt : st.citation_index < sources.length := by
          exact List.getElem?_eq_some_iff.1 hs |>.1
        simp [List.filterMap, citationIndex?, mkCitation, hlt]
    · rw [if_neg hb]
      simp [List.filterMap, citationIndex?]

lemma range'_glue {a b f : Nat} (hab : a ≤ b) (hbf : b ≤ f) :
    List.range' a (b - a) ++ List.range' b (f - b) = List.range' a (f - a) := by
  have h1 : a + (b - a) = b := by omega
  have E := List.range'_append_1 a (b - a) (f - b)
  rw [h1] at E
  rw [E]
  congr 1
  omega

lemma streamLoop_cit (sources : List Source) (chunks : List Str) :
    ∀ st : StreamState, st.citation_index ≤ sources.length →
      ((streamLoop sources st chunks).1.filterMap citationIndex?
        = List.range' st.citation_index
            ((streamLoop sources st chunks).2.citation_index - st.citation_index)) ∧
      st.citation_index ≤ (streamLoop sources st chunks).2.citation_index ∧
      (streamLoop sources st chunks).2.citation_index ≤ sources.length := by
  induction chunks with
  | nil => intro st h; simp [streamLoop, h]
  | cons c cs ih =>
    intro st h
    obtain ⟨hfm, hstep⟩ := processChunk_cit sources st c
    have hle : st.citation_index ≤ (processChunk sources st c).2.citation_index := by
      rcases hstep with h' | ⟨h', _⟩ <;> omega
    have hub : (processChunk sources st c).2.citation_index ≤ sources.length := by
      rcases hstep with h' | ⟨h', hlt⟩ <;> omega
    obtain ⟨ihfm, ihle, ihub⟩ := ih (processChunk sources st c).2 hub
    simp only [streamLoop]
    refine ⟨?_, by omega, ihub⟩
    rw [List.filterMap_append, hfm, ihfm, range'_glue hle ihle]

lemma drop_range' {i n : Nat} (h : i ≤ n) :
    (List.range' 0 n).drop i = List.range' i (n - i) := by
  have hsplit := (range'_glue (Nat.zero_le i) h).symm
  simp only [Nat.sub_zero] at hsplit
  rw [hsplit, List.drop_append_of_le_length (by simp),
    List.drop_of_length_le (by simp)]
  simp

lemma flushCitations_cit (sources : List Source) (i : Nat) (h : i ≤ sources.length) :
    (flushCitations sources i).filterMap citationIndex?
      = List.range' i (sources.length - i) := by
  unfold flushCitations
  rw [List.filterMap_map]
  have : (citationIndex? ∘ fun p : Nat × Source => mkCitation p.1 p.2)
      = some ∘ Prod.fst := rfl
  rw [this, List.filterMap_eq_map, List.map_drop, List.enum, List.enumFrom_map_fst]
  exact drop_range' h

/-- C1: for every token stream and every non-empty source list, the citation
events emitted by `stream_query` with `return_sources=True` carry the indices
`0, 1, …, len(sources)-1` in order — each source is cited exactly once across
generation and the end-of-stream flush — so the number of citation events
equals the number of sources. -/
theorem C1_citation_completeness (sources : List Source) (chunks : List Str)
    (hne : sources ≠ []) :
    ((stream_query sources chunks true).filterMap citationIndex?
      = List.range sources.length) ∧
    ((stream_query sources chunks true).filter isCitation).length = sources.length := by
  have h0 : (0 : Nat) ≤ sources.length := Nat.zero_le _
  obtain ⟨hfm, hle, hub⟩ :=
    streamLoop_cit sources chunks ⟨[], 0, []⟩ h0
  have hflush := flushCitations_cit sources
    (streamLoop sources ⟨[], 0, []⟩ chunks).2.citation_index hub
  have hmain : (stream_query sources chunks true).filterMap citationIndex?
      = List.range sources.length := by
    unfold stream_query
    simp only [if_true, hne, ne_eq, not_false_iff, and_true, and_self, if_pos]
    dsimp only at hfm hle hub hflush ⊢
    rw [List.filterMap_append, hfm, hflush, range'_glue (Nat.zero_le _) hub]
    simp [List.range_eq_range']
  refine ⟨hmain, ?_⟩
  rw [length_filter_isCitation, hmain, List.length_range]

/-- C1 witness: a concrete stream with zero sentence boundaries and one source;
the flush emits the single citation. -/
theorem C1_citation_completeness_witness :
    (stream_query [⟨str "a.txt", str "text", str "d"⟩] [str "hi"] true).filterMap citationIndex?
      = List.range 1 :=
  (C1_citation_completeness [⟨str "a.txt", str "text", str "d"⟩] [str "hi"] (by decide)).1

/-! ## Streaming chat route (`chat.py`, `generate_stream`, lines 72-112) -/

/-- Frames emitted by `generate_stream`: each RAG chunk is forwarded as a
`data:` frame, and the stream ends with a `done` or in-band `error` frame. -/
inductive SSEEvent where
  | chunk (e : StreamEvent)
  | done (conversation_id : Str)
  | error (content : Str)
deriving DecidableEq, Repr

/-- `generate_stream`: forward every chunk of `rag_chain.stream_query`, then a
`done` frame with the conversation id; if anything raises after `k` chunks were
consumed, the `except` block emits a single in-band
`{"type": "error", "content": f"Error: {msg}"}` frame instead. -/
def generate_stream (conversation_id : Str) (ragEvents : List StreamEvent)
    (failure : Option (Nat × Str)) : List SSEEvent :=
  match failure with
  | none => ragEvents.map SSEEvent.chunk ++ [SSEEvent.done conversation_id]
  | some (k, msg) =>
    (ragEvents.take k).map SSEEvent.chunk ++ [SSEEvent.error (str "Error: " ++ msg)]

/-- Whether a frame is terminal (`done` or `error`). -/
def isTerminal : SSEEvent → Bool
  | .chunk _ => false
  | .done _ => true
  | .error _ => true

lemma filter_isTerminal_map_chunk (l : List StreamEvent) :
    (l.map SSEEvent.chunk).filter isTerminal = [] := by
  induction l with
  | nil => rfl
  | cons e t ih => simp [List.filter, isTerminal, ih]

/-- C9: every emitted stream consists of non-terminal chunk frames followed by
exactly one terminal frame: `done` with the conversation id when the RAG stream
completes, and an in-band `error` frame carrying the message when an exception
interrupts it after any prefix — the failure never escapes the generator. -/
theorem C9_terminal_event (conversation_id : Str) (ragEvents : List StreamEvent)
    (failure : Option (Nat × Str)) :
    (∃ body : List StreamEvent,
      generate_stream conversation_id ragEvents failure
        = body.map SSEEvent.chunk ++
          [match failure with
           | none => SSEEvent.done conversation_id
           | some (_, msg) => SSEEvent.error (str "Error: " ++ msg)]) ∧
    ((generate_stream conversation_id ragEvents failure).filter isTerminal).length = 1 := by
  have hone : ∀ (body : List StreamEvent) (t : SSEEvent), isTerminal t = true →
      ((body.map SSEEvent.chunk ++ [t]).filter isTerminal).length = 1 := by
    intro body t ht
    rw [List.filter_append, filter_isTerminal_map_chunk]
    simp [List.filter, ht]
  cases failure with
  | none => exact ⟨⟨ragEvents, rfl⟩, hone ragEvents _ rfl⟩
  | some p => exact ⟨⟨ragEvents.take p.1, rfl⟩, hone (ragEvents.take p.1) _ rfl⟩

/-! ## Upsert retry policy (`vectorstore.py`, `add_documents`, lines 138-196) -/

/-- Classified outcome of one `upsert_records` call: success, a rate-limit
signal (`'429'`/`'RESOURCE_EXHAUSTED'`/`'rate limit'` in the error text), or
any other error. -/
inductive UpsertOutcome where
  | success
  | rateLimit
  | otherError
deriving DecidableEq, Repr

/-- The exception raised after retry exhaustion (lines 183-187 and 196). -/
inductive UploadError where
  | rateLimitExceeded
  | uploadFailed
deriving DecidableEq, Repr

/-- `max_retries = 5` (line 139). -/
def max_retries : Nat := 5

/-- `base_retry_delay = 5` (line 140). -/
def base_retry_delay : Nat := 5

/-- Which exception the final failed attempt raises. -/
def errFor : UpsertOutcome → UploadError
  | .rateLimit => .rateLimitExceeded
  | _ => .uploadFailed

/-- The `for attempt in range(max_retries)` retry loop for one batch
(lines 142-196), as a function of the outcome of each attempt and the sampled
jitter; returns the result together with the list of retry sleeps performed.
`remaining + 1` is the number of loop iterations still available, so
`remaining = 0` means `attempt == max_retries - 1`; the `0` fuel case is never
reached from `upload_batch`. -/
def uploadGo (outcome : Nat → UpsertOutcome) (jitter : Nat → ℚ) :
    Nat → Nat → Except UploadError Unit × List ℚ
  | _, 0 => (.error .uploadFailed, [])
  | a, remaining + 1 =>
    match outcome a with
    | .success => (.ok (), [])
    | .rateLimit =>
      if remaining = 0 then (.error .rateLimitExceeded, [])
      else
        let w := min ((base_retry_delay : ℚ) * 2 ^ a + jitter a) 60
        let r := uploadGo outcome jitter (a + 1) remaining
        (r.1, w :: r.2)
    | .otherError =>
      if remaining = 0 then (.error .uploadFailed, [])
      else
        let w := (2 : ℚ) * (a + 1)
        let r := uploadGo outcome jitter (a + 1) remaining
        (r.1, w :: r.2)

/-- One batch upload with the full retry budget. -/
def upload_batch (outcome : Nat → UpsertOutcome) (jitter : Nat → ℚ) :
    Except UploadError Unit × List ℚ :=
  uploadGo outcome jitter 0 max_retries

/-- The delay the claim's policy prescribes for a failed attempt `a`. -/
def claimDelay (outcome : Nat → UpsertOutcome) (jitter : Nat → ℚ) (a : Nat) : ℚ :=
  match outcome a with
  | .rateLimit => min 60 (5 * 2 ^ a + jitter a)
  | .otherError => 2 * (a + 1)
  | .success => 0

/-- The sequential loop over batches (line 138): the first batch that exhausts
its retries aborts the whole ingestion with its error. -/
def upload_batches (outcome : Nat → Nat → UpsertOutcome) (jitter : Nat → Nat → ℚ) :
    Nat → Nat → Except UploadError Unit
  | _, 0 => .ok ()
  | i, k + 1 =>
    match (upload_batch (outcome i) (jitter i)).1 with
    | .ok _ => upload_batches outcome jitter (i + 1) k
    | .error e => .error e

lemma claimDelay_rateLimit {outcome : Nat → UpsertOutcome} {a : Nat}
    (jitter : Nat → ℚ) (h : outcome a = .rateLimit) :
    min ((base_retry_delay : ℚ) * 2 ^ a + jitter a) 60 = claimDelay outcome jitter a := by
  rw [claimDelay, h, min_comm]
  norm_num [base_retry_delay]

lemma claimDelay_otherError {outcome : Nat → UpsertOutcome} {a : Nat}
    (jitter : Nat → ℚ) (h : outcome a = .otherError) :
    (2 : ℚ) * (a + 1) = claimDelay outcome jitter a := by
  rw [claimDelay, h]

/-- Closed-form characterization of the retry loop on the attempt window
`[a, a + fuel)`. -/
lemma uploadGo_spec (outcome : Nat → UpsertOutcome) (jitter : Nat → ℚ) :
    ∀ fuel a, 1 ≤ fuel →
      (match (List.range' a fuel).find? (fun x => outcome x == .success) with
       | some s => uploadGo outcome jitter a fuel
           = (.ok (), (List.range' a (s - a)).map (claimDelay outcome jitter))
       | none => uploadGo outcome jitter a fuel
           = (.error (errFor (outcome (a + fuel - 1))),
              (List.range' a (fuel - 1)).map (claimDelay outcome jitter))) := by
  intro fuel
  induction fuel with
  | zero => omega
  | succ f ih =>
    intro a _
    rw [List.range'_succ]
    cases hsucc : outcome a == UpsertOutcome.success
    · rw [List.find?_cons_of_neg _ (by simp [hsucc])]
      have houtcome : outcome a ≠ .success := by
        intro h
        rw [h] at hsucc
        simp at hsucc
      by_cases hf : f = 0
      · subst hf
        simp only [List.range'_zero, List.find?_nil]
        cases ho : outcome a with
        | success => exact absurd ho houtcome
        | rateLimit => simp [uploadGo, ho, errFor]
        | otherError => simp [uploadGo, ho, errFor]
      · have hf1 : 1 ≤ f := by omega
        have := ih (a + 1) hf1
        cases hfind : (List.range' (a + 1) f).find? (fun x => outcome x == .success) with
        | some s =>
          rw [hfind] at this
          have hs : a + 1 ≤ s := by
            have hmem := List.mem_of_find?_eq_some hfind
            exact (List.mem_range'_1.1 hmem).1
          have hrange : List.range' a (s - a)
              = a :: List.range' (a + 1) (s - (a + 1)) := by
            have h1 : s - a = (s - (a + 1)) + 1 := by omega
            rw [h1, List.range'_succ]
          cases ho : outcome a with
          | success => exact absurd ho houtcome
          | rateLimit =>
            simp only [uploadGo, ho, hf, if_neg hf, this]
            rw [hrange]
            simp [claimDelay_rateLimit jitter ho]
          | otherError =>
            simp only [uploadGo, ho, hf, if_neg hf, this]
            rw [hrange]
            simp [claimDelay_otherError jitter ho]
        | none =>
          rw [hfind] at this
          have hlast : a + 1 + f - 1 = a + (f + 1) - 1 := by omega
          have hrange : List.range' a (f + 1 - 1)
              = a :: List.range' (a + 1) (f - 1) := by
            have h1 : f + 1 - 1 = (f - 1) + 1 := by omega
            rw [h1, List.range'_succ]
          cases ho : outcome a with
          | success => exact absurd ho houtcome
          | rateLimit =>
            simp only [uploadGo, ho, if_neg hf, this, hlast]
            rw [hrange]
            simp [claimDelay_rateLimit jitter ho]
          | otherError =>
            simp only [uploadGo, ho, if_neg hf, this, hlast]
            rw [hrange]
            simp [claimDelay_otherError jitter ho]
    · have houtcome : outcome a = .success := by
        simpa using hsucc
      rw [List.find?_cons_of_pos _ (by simp [hsucc])]
      cases f with
      | zero => simp [uploadGo, houtcome]
      | succ f' => simp [uploadGo, houtcome]

/-- C6: per batch, the code performs at most `max_retries = 5` upsert attempts;
a rate-limited attempt `a` that is retried sleeps `min(60, 5*2^attempt +
jitter)` seconds with `jitter ∈ [1,3]`, any other failed retried attempt
sleeps `2*(attempt+1)` seconds; when no attempt succeeds the batch raises a
descriptive error (rate-limit-exceeded resp. upload-failed, per the final
attempt's failure kind) after the 4 inter-attempt sleeps, and that error
aborts the whole sequential ingestion loop rather than being swallowed. -/
theorem C6_retry_policy (outcome : Nat → UpsertOutcome) (jitter : Nat → ℚ)
    (hj : ∀ a, 1 ≤ jitter a ∧ jitter a ≤ 3) :
    (match (List.range max_retries).find? (fun x => outcome x == .success) with
     | some s => upload_batch outcome jitter
         = (.ok (), (List.range s).map (claimDelay outcome jitter))
     | none => upload_batch outcome jitter
         = (.error (errFor (outcome (max_retries - 1))),
            (List.range (max_retries - 1)).map (claimDelay outcome jitter))) ∧
    (∀ bOutcome : Nat → Nat → UpsertOutcome, ∀ bJitter : Nat → Nat → ℚ, ∀ i n,
      upload_batches bOutcome bJitter i n = .ok () ↔
        ∀ j, j < n → (upload_batch (bOutcome (i + j)) (bJitter (i + j))).1 = .ok ()) := by
  constructor
  · have := uploadGo_spec outcome jitter max_retries 0 (by norm_num [max_retries])
    rw [← List.range_eq_range'] at this
    cases hfind : (List.range max_retries).find? (fun x => outcome x == .success) with
    | some s =>
      rw [hfind] at this
      rw [upload_batch, this]
      have : List.range' 0 (s - 0) = List.range s := by
        rw [Nat.sub_zero, List.range_eq_range']
      rw [this]
    | none =>
      rw [hfind] at this
      rw [upload_batch, this]
      have : List.range' 0 (max_retries - 1) = List.range (max_retries - 1) := by
        rw [List.range_eq_range']
      rw [Nat.zero_add, this]
  · intro bOutcome bJitter i n
    induction n generalizing i with
    | zero => simp [upload_batches]
    | succ k ih =>
      simp only [upload_batches]
      cases hres : (upload_batch (bOutcome i) (bJitter i)).1 with
      | ok u =>
        rw [ih (i + 1)]
        constructor
        · intro h j hj'
          cases j with
          | zero => simpa using hres
          | succ j' =>
            have := h j' (by omega)
            simpa [Nat.add_assoc, Nat.add_comm, Nat.add_left_comm] using this
        · intro h j hj'
          have := h (j + 1) (by omega)
          simpa [Nat.add_assoc, Nat.add_comm, Nat.add_left_comm] using this
      | error e =>
        simp only []
        constructor
        · intro h
          exact absurd h (by simp)
        · intro h
          have := h 0 (by omega)
          simp at this
          rw [hres] at this
          exact absurd this (by simp)

/-- C6 witness: a batch whose first attempt rate-limits and second succeeds is
retried exactly once, with the prescribed exponential-backoff sleep. -/
theorem C6_retry_policy_witness :
    upload_batch (fun a => if a = 0 then .rateLimit else .success) (fun _ => 2)
      = (.ok (), [min ((5 : ℚ) * 2 ^ 0 + 2) 60]) := by
  have h := (C6_retry_policy (fun a => if a = 0 then .rateLimit else .success)
    (fun _ => 2) (fun _ => by norm_num)).1
  rw [show (List.range max_retries).find?
      (fun x => (if x = 0 then UpsertOutcome.rateLimit else .success) == .success)
      = some 1 from by decide] at h
  rw [h]
  simp [claimDelay, List.range, List.range.loop, base_retry_delay]
  norm_num [min_comm]

/-! ## Deletion / recovery engine (`vectorstore.py`, `delete_documents`,
lines 484-632, and the delete route of `documents.py`, lines 138-256) -/

/-- Metadata stored per chunk in `self._chunk_metadata` (lines 74-80). -/
structure ChunkMeta where
  document_id : Str
  filename : Str
  file_type : Str
  upload_date : Str
  text : Str
deriving DecidableEq, Repr

/-- The in-process state of `VectorStoreManager`: `self._document_chunks` and
`self._chunk_metadata`, as insertion-ordered dictionaries (keys unique). -/
structure VSState where
  document_chunks : List (Str × List Str)
  chunk_metadata : List (Str × ChunkMeta)
deriving DecidableEq, Repr

/-- Python `dict.get`. -/
def dictGet {α : Type} (l : List (Str × α)) (k : Str) : Option α :=
  (l.find? (fun p => p.1 == k)).map Prod.snd

/-- Outcomes of the remote Pinecone calls made during one deletion:
whether each `index.delete(ids=batch)` call succeeds, and what the probe
`index.search` of the recovery path returns (`none` = the search raises). -/
structure DeleteOracle where
  deleteOk : List Str → Bool
  searchResult : Option (List Str)

/-- Python `set` accumulation of ids, modelled as first-occurrence dedup. -/
def unionIds (xs : List Str) : List Str :=
  xs.foldl (fun acc x => if x ∈ acc then acc else acc ++ [x]) []

/-- `self._document_chunks.get(document_id, [])` (line 498). -/
def trackedChunks (st : VSState) (document_id : Str) : List Str :=
  (dictGet st.document_chunks document_id).getD []

/-- Step 2 of chunk discovery over a metadata dictionary: entries whose
`document_id` matches (lines 502-504). -/
def metaScanL (m : List (Str × ChunkMeta)) (document_id : Str) : List Str :=
  (m.filter (fun p => p.2.document_id == document_id)).map Prod.fst

/-- Step 2 applied to the manager state. -/
def metadataScan (st : VSState) (document_id : Str) : List Str :=
  metaScanL st.chunk_metadata document_id

/-- Step 3 of chunk discovery over a metadata dictionary: keys matching
`{document_id}_chunk_` (lines 507-509). -/
def patScanL (m : List (Str × ChunkMeta)) (document_id : Str) : List Str :=
  (m.map Prod.fst).filter (fun cid => chunkPatternMatch document_id cid)

/-- Step 3 applied to the manager state. -/
def patternScan (st : VSState) (document_id : Str) : List Str :=
  patScanL st.chunk_metadata document_id

/-- The union of the three discovery strategies (lines 495-512). -/
def localChunkIds (st : VSState) (document_id : Str) : List Str :=
  unionIds (trackedChunks st document_id ++ metadataScan st document_id
    ++ patternScan st document_id)

/-- Slicing `chunk_ids[i:i+n]` over the whole list: the chunk under
construction is accumulated in reverse. -/
def chunksGo {α : Type} (n : Nat) : List α → List α → List (List α)
  | cur, [] => if cur.isEmpty then [] else [cur.reverse]
  | cur, x :: xs =>
    let cur' := x :: cur
    if cur'.length = n then cur'.reverse :: chunksGo n [] xs
    else chunksGo n cur' xs

/-- `for i in range(0, len(ids), n): batch = ids[i:i+n]`. -/
def chunksOf {α : Type} (n : Nat) (l : List α) : List (List α) :=
  chunksGo n [] l

/-- Result of `delete_documents`: returned normally, or raised
`Exception("Failed to delete documents from Pinecone: ...")`. -/
inductive DeleteResult where
  | ok
  | error
deriving DecidableEq, Repr

/-- Local cleanup (lines 526-532, also 539-543 and 616-622): drop the tracked
entry for the document and the metadata entries of the given chunk ids. -/
def cleanupLocal (st : VSState) (document_id : Str) (chunk_ids : List Str) : VSState :=
  { document_chunks := st.document_chunks.filter (fun p => !(p.1 == document_id))
    chunk_metadata := st.chunk_metadata.filter (fun p => !(decide (p.1 ∈ chunk_ids))) }

/-- The primary-path batch loop inside one `try` (lines 516-523): batches are
deleted in order, and the first failing batch raises, aborting the rest.
Returns the batches actually attempted and whether all succeeded. -/
def attemptBatches (o : DeleteOracle) : List (List Str) → List (List Str) × Bool
  | [] => ([], true)
  | b :: bs =>
    if o.deleteOk b then
      let r := attemptBatches o bs
      (b :: r.1, r.2)
    else ([b], false)

/-- The recovery-path chunk ids (lines 553-600): probe search filtered by the
id pattern, falling back to a metadata scan by `document_id`; a raising probe
search is caught and treated as no results. -/
def recoveryChunkIds (o : DeleteOracle) (st : VSState) (document_id : Str) : List Str :=
  let searched :=
    match o.searchResult with
    | none => []
    | some ids => ids.filter (fun cid => chunkPatternMatch document_id cid)
  if searched.isEmpty then metadataScan st document_id else searched

/-- `VectorStoreManager.delete_documents` (lines 484-632): returns the new
local state, the result, and the trace of id batches passed to
`index.delete`. -/
def delete_documents (o : DeleteOracle) (document_id : Str) (st : VSState) :
    VSState × DeleteResult × List (List Str) :=
  let chunk_ids := localChunkIds st document_id
  if chunk_ids.isEmpty then
    let found := recoveryChunkIds o st document_id
    if found.isEmpty then
      ({ st with
          document_chunks := st.document_chunks.filter (fun p => !(p.1 == document_id)) },
        .ok, [])
    else
      (cleanupLocal st document_id found, .ok, chunksOf 1000 found)
  else
    let batches := chunksOf 1000 chunk_ids
    let att := attemptBatches o batches
    (cleanupLocal st document_id chunk_ids, if att.2 then .ok else .error, att.1)

/-- Result of the HTTP delete route. -/
inductive RouteResult where
  | success
  | notFound
  | serverError
deriving DecidableEq, Repr

/-- The filename-based extra deletion of the route (lines 182-212): one `try`
around a batch loop; each successful batch also drops its metadata entries, the
first failing batch aborts the loop (exception caught, remaining batches and
cleanup skipped). -/
def filenameDeleteLoop (o : DeleteOracle) : VSState → List (List Str) → VSState
  | vs, [] => vs
  | vs, b :: bs =>
    if o.deleteOk b then
      filenameDeleteLoop o
        { vs with chunk_metadata := vs.chunk_metadata.filter (fun p => !(decide (p.1 ∈ b))) } bs
    else vs

/-- `delete_document` route (`documents.py`, lines 138-256): the registry is
modelled as the `document_id → filename` association it exposes to this route;
on-disk file removal is an external effect whose failures the route swallows,
so it is not part of the state. -/
def delete_document_route (o : DeleteOracle) (document_id : Str)
    (registry : List (Str × Str)) (vs : VSState) :
    (List (Str × Str) × VSState) × RouteResult :=
  let resolved : Option (Str × Str) :=
    match registry.find? (fun p => p.1 == document_id) with
    | some p => some p
    | none => registry.find? (fun p => p.2 == document_id)
  match resolved with
  | none => ((registry, vs), .notFound)
  | some (docId, filename) =>
    let d := delete_documents o docId vs
    match d.2.1 with
    | .error => ((registry, d.1), .serverError)
    | .ok =>
      let chunks_to_delete :=
        (d.1.chunk_metadata.filter (fun p => p.2.filename == filename)).map Prod.fst
      let vs2 := filenameDeleteLoop o d.1 (chunksOf 1000 chunks_to_delete)
      ((registry.filter (fun p => !(p.1 == docId)), vs2), .success)

lemma mem_unionIds_aux (x : Str) : ∀ (l acc : List Str),
    (x ∈ l.foldl (fun acc y => if y ∈ acc then acc else acc ++ [y]) acc) ↔
      (x ∈ acc ∨ x ∈ l) := by
  intro l
  induction l with
  | nil => simp
  | cons y t ih =>
    intro acc
    simp only [List.foldl_cons]
    by_cases hy : y ∈ acc
    · rw [if_pos hy, ih acc]
      constructor
      · rintro (h | h)
        · exact Or.inl h
        · exact Or.inr (List.mem_cons_of_mem _ h)
      · rintro (h | h)
        · exact Or.inl h
        · rcases List.mem_cons.1 h with rfl | h
          · exact Or.inl hy
          · exact Or.inr h
    · rw [if_neg hy, ih (acc ++ [y])]
      constructor
      · rintro (h | h)
        · rcases List.mem_append.1 h with h | h
          · exact Or.inl h
          · rcases List.mem_singleton.1 h with rfl
            exact Or.inr (List.mem_cons_self _ _)
        · exact Or.inr (List.mem_cons_of_mem _ h)
      · rintro (h | h)
        · exact Or.inl (List.mem_append.2 (Or.inl h))
        · rcases List.mem_cons.1 h with rfl | h
          · exact Or.inl (List.mem_append.2 (Or.inr (List.mem_singleton.2 rfl)))
          · exact Or.inr h

lemma mem_unionIds {x : Str} {l : List Str} : x ∈ unionIds l ↔ x ∈ l := by
  rw [unionIds, mem_unionIds_aux]
  simp

lemma localChunkIds_eq_nil_iff (st : VSState) (d : Str) :
    localChunkIds st d = [] ↔
      trackedChunks st d = [] ∧ metadataScan st d = [] ∧ patternScan st d = [] := by
  simp only [localChunkIds, List.eq_nil_iff_forall_not_mem, mem_unionIds, List.mem_append]
  constructor
  · intro h
    refine ⟨fun x hx => ?_, fun x hx => ?_, fun x hx => ?_⟩ <;> exact h x (by tauto)
  · rintro ⟨h1, h2, h3⟩ x hx
    rcases hx with (hx | hx) | hx
    exacts [h1 x hx, h2 x hx, h3 x hx]

lemma dictGet_filter_ne {α : Type} (l : List (Str × α)) (d : Str) :
    dictGet (l.filter (fun p => !(p.1 == d))) d = none := by
  rw [dictGet, List.find?_eq_none.2, Option.map_none']
  intro p hp
  have := (List.mem_filter.1 hp).2
  simp at this
  simp [this]

lemma metaScanL_filter_nil (m : List (Str × ChunkMeta)) (d : Str)
    (q : Str × ChunkMeta → Bool) (h : metaScanL m d = []) :
    metaScanL (m.filter q) d = [] := by
  rw [metaScanL, List.eq_nil_iff_forall_not_mem]
  intro x hx
  rw [List.mem_map] at hx
  obtain ⟨p, hp, rfl⟩ := hx
  have hp' := List.mem_filter.1 hp
  have hmem : p.1 ∈ metaScanL m d :=
    List.mem_map.2 ⟨p, List.mem_filter.2 ⟨(List.mem_filter.1 hp'.1).1, hp'.2⟩, rfl⟩
  rw [h] at hmem
  exact List.not_mem_nil _ hmem

lemma patScanL_filter_nil (m : List (Str × ChunkMeta)) (d : Str)
    (q : Str × ChunkMeta → Bool) (h : patScanL m d = []) :
    patScanL (m.filter q) d = [] := by
  rw [patScanL, List.eq_nil_iff_forall_not_mem]
  intro x hx
  rw [List.mem_filter] at hx
  obtain ⟨hx1, hx2⟩ := hx
  rw [List.mem_map] at hx1
  obtain ⟨p, hp, rfl⟩ := hx1
  have hmem : p.1 ∈ patScanL m d :=
    List.mem_filter.2 ⟨List.mem_map.2 ⟨p, (List.mem_filter.1 hp).1, rfl⟩, hx2⟩
  rw [h] at hmem
  exact List.not_mem_nil _ hmem

lemma metaScanL_cleanup (m : List (Str × ChunkMeta)) (d : Str) (ids : List Str)
    (hsub : ∀ k, k ∈ metaScanL m d → k ∈ ids) :
    metaScanL (m.filter (fun p => !(decide (p.1 ∈ ids)))) d = [] := by
  rw [metaScanL, List.eq_nil_iff_forall_not_mem]
  intro x hx
  rw [List.mem_map] at hx
  obtain ⟨p, hp, rfl⟩ := hx
  have hp' := List.mem_filter.1 hp
  have hfilt := List.mem_filter.1 hp'.1
  have hin : p.1 ∈ ids :=
    hsub p.1 (List.mem_map.2 ⟨p, List.mem_filter.2 ⟨hfilt.1, hp'.2⟩, rfl⟩)
  have := hfilt.2
  simp [hin] at this

lemma patScanL_cleanup (m : List (Str × ChunkMeta)) (d : Str) (ids : List Str)
    (hsub : ∀ k, k ∈ patScanL m d → k ∈ ids) :
    patScanL (m.filter (fun p => !(decide (p.1 ∈ ids)))) d = [] := by
  rw [patScanL, List.eq_nil_iff_forall_not_mem]
  intro x hx
  rw [List.mem_filter] at hx
  obtain ⟨hx1, hx2⟩ := hx
  rw [List.mem_map] at hx1
  obtain ⟨p, hp, rfl⟩ := hx1
  have hfilt := List.mem_filter.1 hp
  have hin : p.1 ∈ ids :=
    hsub p.1 (List.mem_filter.2 ⟨List.mem_map.2 ⟨p, hfilt.1, rfl⟩, hx2⟩)
  have := hfilt.2
  simp [hin] at this

lemma metaScan_sub_local (st : VSState) (d : Str) :
    ∀ k, k ∈ metaScanL st.chunk_metadata d → k ∈ localChunkIds st d := by
  intro k hk
  rw [localChunkIds, mem_unionIds]
  exact List.mem_append.2 (Or.inl (List.mem_append.2 (Or.inr hk)))

lemma patScan_sub_local (st : VSState) (d : Str) :
    ∀ k, k ∈ patScanL st.chunk_metadata d → k ∈ localChunkIds st d := by
  intro k hk
  rw [localChunkIds, mem_unionIds]
  exact List.mem_append.2 (Or.inr hk)

/-- After any `delete_documents` call, every local discovery strategy for that
document id comes up empty. -/
lemma localChunkIds_delete_documents (o : DeleteOracle) (d : Str) (st : VSState) :
    localChunkIds (delete_documents o d st).1 d = [] := by
  rw [delete_documents]
  by_cases hloc : (localChunkIds st d).isEmpty
  · have hempty := List.isEmpty_iff.1 hloc
    obtain ⟨ht, hm, hp⟩ := (localChunkIds_eq_nil_iff st d).1 hempty
    simp only [hloc, if_pos, if_true]
    by_cases hf : (recoveryChunkIds o st d).isEmpty
    · simp only [hf, if_pos, if_true]
      rw [localChunkIds_eq_nil_iff]
      exact ⟨by simp [trackedChunks, dictGet_filter_ne], hm, hp⟩
    · simp only [hf, Bool.false_eq_true, if_false]
      rw [localChunkIds_eq_nil_iff]
      refine ⟨by simp [trackedChunks, cleanupLocal, dictGet_filter_ne], ?_, ?_⟩
      · exact metaScanL_filter_nil _ _ _ hm
      · exact patScanL_filter_nil _ _ _ hp
  · simp only [hloc, Bool.false_eq_true, if_false]
    rw [localChunkIds_eq_nil_iff]
    refine ⟨by simp [trackedChunks, cleanupLocal, dictGet_filter_ne], ?_, ?_⟩
    · exact metaScanL_cleanup _ _ _ (metaScan_sub_local st d)
    · exact patScanL_cleanup _ _ _ (patScan_sub_local st d)

/-- The recovery path (empty local discovery) never raises. -/
lemma delete_documents_ok_of_empty (o : DeleteOracle) (d : Str) (st : VSState)
    (h : localChunkIds st d = []) :
    (delete_documents o d st).2.1 = DeleteResult.ok := by
  rw [delete_documents]
  simp only [h, List.isEmpty_nil, if_true]
  by_cases hf : (recoveryChunkIds o st d).isEmpty
  · simp [hf]
  · simp [hf]

lemma chunksGo_length {α : Type} (n : Nat) :
    ∀ (l cur : List α), cur.length < n → ∀ b ∈ chunksGo n cur l, b.length ≤ n := by
  intro l
  induction l with
  | nil =>
    intro cur hcur b hb
    rw [chunksGo] at hb
    by_cases hc : cur.isEmpty
    · simp [hc] at hb
    · simp only [hc, Bool.false_eq_true, if_false] at hb
      rcases List.mem_singleton.1 hb with rfl
      simp only [List.length_reverse]
      omega
  | cons x xs ih =>
    intro cur hcur b hb
    rw [chunksGo] at hb
    by_cases hlen : (x :: cur).length = n
    · rw [if_pos hlen] at hb
      rcases List.mem_cons.1 hb with rfl | hb
      · simp only [List.length_reverse]
        omega
      · have hn : 0 < n := by
          rw [← hlen]
          simp
        exact ih [] (by simpa using hn) b hb
    · rw [if_neg hlen] at hb
      have : (x :: cur).length < n := by
        simp only [List.length_cons] at hlen ⊢
        omega
      exact ih (x :: cur) this b hb

lemma chunksGo_flatten {α : Type} (n : Nat) :
    ∀ (l cur : List α), (chunksGo n cur l).flatten = cur.reverse ++ l := by
  intro l
  induction l with
  | nil =>
    intro cur
    rw [chunksGo]
    by_cases hc : cur.isEmpty
    · rw [List.isEmpty_iff] at hc
      subst hc
      simp
    · simp [hc]
  | cons x xs ih =>
    intro cur
    rw [chunksGo]
    by_cases hlen : (x :: cur).length = n
    · rw [if_pos hlen]
      simp [ih []]
    · rw [if_neg hlen, ih (x :: cur)]
      simp

lemma chunksOf_flatten {α : Type} (n : Nat) (l : List α) :
    (chunksOf n l).flatten = l := by
  rw [chunksOf, chunksGo_flatten]
  simp

lemma chunksOf_length (l : List Str) :
    ∀ b ∈ chunksOf 1000 l, b.length ≤ 1000 :=
  chunksGo_length 1000 l [] (by norm_num)

lemma attemptBatches_ok (o : DeleteOracle) :
    ∀ bs, (attemptBatches o bs).2 = true ↔ ∀ b ∈ bs, o.deleteOk b = true := by
  intro bs
  induction bs with
  | nil => simp [attemptBatches]
  | cons b t ih =>
    rw [attemptBatches]
    by_cases h : o.deleteOk b
    · rw [if_pos h]
      simp only [List.mem_cons]
      constructor
      · intro hall b' hb'
        rcases hb' with rfl | hb'
        · exact h
        · exact (ih.1 hall) b' hb'
      · intro hall
        exact ih.2 fun b' hb' => hall b' (Or.inr hb')
    · rw [if_neg h]
      simp only [List.mem_cons]
      constructor
      · intro hfalse
        exact absurd hfalse (by simp)
      · intro hall
        exact absurd (hall b (Or.inl rfl)) h

lemma attemptBatches_leading (o : DeleteOracle) :
    ∀ bs, (attemptBatches o bs).1 <+: bs := by
  intro bs
  induction bs with
  | nil => simp [attemptBatches]
  | cons b t ih =>
    rw [attemptBatches]
    by_cases h : o.deleteOk b
    · rw [if_pos h]
      exact List.cons_prefix_cons.2 ⟨rfl, ih⟩
    · rw [if_neg h]
      exact List.cons_prefix_cons.2 ⟨rfl, List.nil_prefix⟩

/-- Branch equation: empty local discovery takes the recovery path. -/
lemma delete_documents_eq_recovery (o : DeleteOracle) (d : Str) (st : VSState)
    (h : (localChunkIds st d).isEmpty = true) :
    delete_documents o d st =
      if (recoveryChunkIds o st d).isEmpty then
        ({ st with
            document_chunks := st.document_chunks.filter (fun p => !(p.1 == d)) },
          .ok, [])
      else
        (cleanupLocal st d (recoveryChunkIds o st d), .ok,
          chunksOf 1000 (recoveryChunkIds o st d)) := by
  rw [delete_documents]
  simp only [h, if_true]

/-- Branch equation: non-empty local discovery takes the primary path. -/
lemma delete_documents_eq_primary (o : DeleteOracle) (d : Str) (st : VSState)
    (h : ¬ (localChunkIds st d).isEmpty = true) :
    delete_documents o d st =
      (cleanupLocal st d (localChunkIds st d),
        (if (attemptBatches o (chunksOf 1000 (localChunkIds st d))).2
          then DeleteResult.ok else .error),
        (attemptBatches o (chunksOf 1000 (localChunkIds st d))).1) := by
  rw [delete_documents]
  simp only [h, Bool.false_eq_true, if_false]

/-- Oracle for which every remote call succeeds. -/
def okOracle : DeleteOracle := ⟨fun _ => true, some []⟩

/-- Oracle for which every remote delete call fails. -/
def failOracle : DeleteOracle := ⟨fun _ => false, some []⟩

/-- A concrete one-chunk state used by counterexamples and witnesses. -/
def meta0 : ChunkMeta :=
  ⟨str "d", str "a.txt", str "txt", str "", str "hello"⟩

/-- A concrete state tracking one chunk of document `"d"`. -/
def st0 : VSState :=
  ⟨[(str "d", [str "d_chunk_0"])], [(str "d_chunk_0", meta0)]⟩

/-- C5 counterexample: the claim as stated is false — in the primary path
(chunks found locally) a failing `index.delete` batch is not skipped: the call
raises (`Exception("Failed to delete documents from Pinecone: ...")`). -/
theorem C5_counterexample :
    (delete_documents failOracle (str "d") st0).2.1 = DeleteResult.error := by decide

/-- C5 (amended): every id batch passed to the remote delete holds at most
1000 ids, and batching partitions the id list exactly; in the recovery path
(empty local discovery) every batch is attempted and batch failures are
skipped without aborting, the call always returning success; in the primary
path the local Chunk Metadata Store and tracked chunk-id list are cleaned up
for the document even when a remote delete batch fails, but a batch failure
aborts the remaining batches (the trace is only a prefix) and the call raises
unless every batch succeeded. -/
theorem C5_delete_batching (o : DeleteOracle) (d : Str) (st : VSState) :
    (∀ b ∈ (delete_documents o d st).2.2, b.length ≤ 1000) ∧
    (∀ ids : List Str, (chunksOf 1000 ids).flatten = ids) ∧
    (localChunkIds st d = [] →
      (delete_documents o d st).2.1 = DeleteResult.ok ∧
      (delete_documents o d st).2.2 = chunksOf 1000 (recoveryChunkIds o st d)) ∧
    (localChunkIds st d ≠ [] →
      (delete_documents o d st).1 = cleanupLocal st d (localChunkIds st d) ∧
      ((delete_documents o d st).2.1 = DeleteResult.ok ↔
        ∀ b ∈ chunksOf 1000 (localChunkIds st d), o.deleteOk b = true) ∧
      (delete_documents o d st).2.2 <+: chunksOf 1000 (localChunkIds st d)) := by
  refine ⟨?_, fun ids => chunksOf_flatten 1000 ids, ?_, ?_⟩
  · intro b hb
    by_cases hloc : (localChunkIds st d).isEmpty
    · rw [delete_documents_eq_recovery o d st hloc] at hb
      by_cases hf : (recoveryChunkIds o st d).isEmpty
      · simp [hf] at hb
      · simp only [hf, Bool.false_eq_true, if_false] at hb
        exact chunksOf_length _ b hb
    · rw [delete_documents_eq_primary o d st hloc] at hb
      exact chunksOf_length _ b
        ((attemptBatches_leading o (chunksOf 1000 (localChunkIds st d))).subset hb)
  · intro hempty
    have hloc : (localChunkIds st d).isEmpty = true := by simp [hempty]
    rw [delete_documents_eq_recovery o d st hloc]
    by_cases hf : (recoveryChunkIds o st d).isEmpty
    · have hnil := List.isEmpty_iff.1 hf
      simp [hf, hnil, show chunksOf 1000 ([] : List Str) = [] from rfl]
    · simp [hf]
  · intro hne
    have hloc : ¬ (localChunkIds st d).isEmpty = true := by
      simpa [List.isEmpty_iff] using hne
    rw [delete_documents_eq_primary o d st hloc]
    refine ⟨rfl, ?_, attemptBatches_leading o _⟩
    by_cases hall : (attemptBatches o (chunksOf 1000 (localChunkIds st d))).2
    · simp only [hall, if_true]
      simpa using (attemptBatches_ok o _).1 hall
    · simp only [hall, Bool.false_eq_true, if_false]
      constructor
      · intro h
        exact absurd h (by simp)
      · intro h
        exact absurd ((attemptBatches_ok o _).2 h) hall

/-- C5 witness: on the concrete one-chunk state with a failing remote, local
cleanup still happens (the amended theorem's primary-path conjunct, hypotheses
discharged by evaluation). -/
theorem C5_delete_batching_witness :
    (delete_documents failOracle (str "d") st0).1
      = cleanupLocal st0 (str "d") (localChunkIds st0 (str "d")) :=
  ((C5_delete_batching failOracle (str "d") st0).2.2.2 (by decide)).1

/-- C3 counterexample: the claim as stated is false for the deletion request
route — deleting document `"d"` twice in a row, the first call succeeds and
removes the registry entry, and the second call returns 404 `notFound` instead
of success, even though the vector-store layer itself would succeed. -/
theorem C3_counterexample :
    (delete_document_route okOracle (str "d") [(str "d", str "a.txt")] st0).2
        = RouteResult.success ∧
    (delete_document_route okOracle (str "d")
        (delete_document_route okOracle (str "d") [(str "d", str "a.txt")] st0).1.1
        (delete_document_route okOracle (str "d") [(str "d", str "a.txt")] st0).1.2).2
      = RouteResult.notFound := by decide

/-- C3 (amended): the vector-store deletion operation is idempotent — whenever
every discovery strategy finds zero chunks it returns success rather than
raising, and a second `delete_documents` call right after a first one always
returns success; the HTTP deletion route, however, returns 404 `notFound` when
the document id is absent from the registry (by id and by filename), so a
second route-level deletion of the same document errors rather than
succeeding. -/
theorem C3_idempotent_deletion :
    (∀ (o : DeleteOracle) (d : Str) (st : VSState),
      localChunkIds st d = [] → (delete_documents o d st).2.1 = DeleteResult.ok) ∧
    (∀ (o1 o2 : DeleteOracle) (d : Str) (st : VSState),
      (delete_documents o2 d (delete_documents o1 d st).1).2.1 = DeleteResult.ok) ∧
    (∀ (o : DeleteOracle) (d : Str) (registry : List (Str × Str)) (vs : VSState),
      registry.find? (fun p => p.1 == d) = none →
      registry.find? (fun p => p.2 == d) = none →
      (delete_document_route o d registry vs).2 = RouteResult.notFound) := by
  refine ⟨delete_documents_ok_of_empty, ?_, ?_⟩
  · intro o1 o2 d st
    exact delete_documents_ok_of_empty o2 d _ (localChunkIds_delete_documents o1 d st)
  · intro o d registry vs h1 h2
    rw [delete_document_route]
    simp only [h1, h2]

/-- C3 witness: deleting from an empty state succeeds, via the amended theorem
with the zero-chunks hypothesis discharged by evaluation. -/
theorem C3_idempotent_deletion_witness :
    (delete_documents okOracle (str "x") ⟨[], []⟩).2.1 = DeleteResult.ok :=
  C3_idempotent_deletion.1 okOracle (str "x") ⟨[], []⟩ (by decide)

/-! ## Result normalizer (`vectorstore.py`, `similarity_search`, lines 205-403) -/

/-- A match in the dictionary response format
(`{'_id': ..., 'text': ..., 'fields': ..., 'metadata': ..., 'filename': ...,
'document_id': ..., 'file_type': ...}`); every key may be absent (`none`).
`fields_text?`/`metadata_text?` are `some inner` when the `fields`/`metadata`
container is present, with `inner` its optional `text` entry. -/
structure MatchDict where
  idU : Option Str
  idPlain : Option Str
  text? : Option Str
  fields_text? : Option (Option Str)
  metadata_text? : Option (Option Str)
  filename? : Option Str
  document_id? : Option Str
  file_type? : Option Str
deriving DecidableEq, Repr

/-- The `metadata` dictionary being assembled for one match (lines 332-395);
`none` means the key is absent. -/
structure MetaDict where
  filename : Option Str
  document_id : Option Str
  file_type : Option Str
  upload_date : Option Str
  text : Option Str
deriving DecidableEq, Repr

/-- Python `not metadata` on the assembled dictionary: true iff no key was set. -/
def MetaDict.isEmptyDict (m : MetaDict) : Bool :=
  m.filename.isNone && m.document_id.isNone && m.file_type.isNone &&
    m.upload_date.isNone && m.text.isNone

/-- A Document Registry entry as consumed by the normalizer
(`doc_data.get('filename', ...)`, `doc_data.get('file_type', ...)`). -/
structure RegDoc where
  filename : Option Str
  file_type : Option Str
deriving DecidableEq, Repr

/-- Python `a or b` on optional strings. -/
def pyOr (a b : Option Str) : Option Str := if truthy a then a else b

/-- `match.get('_id') or match.get('id')` (line 285). -/
def matchIdOf (m : MatchDict) : Option Str := pyOr m.idU m.idPlain

/-- Text extraction for a dict match (lines 296-307): direct `text` field, then
`fields`' `text`, then `metadata`'s `text`; all falsy values propagate as `""`. -/
def textExtract (m : MatchDict) : Str :=
  let t1 := m.text?.getD []
  let t2 := if t1.isEmpty then
      match m.fields_text? with
      | some inner => inner.getD []
      | none => t1
    else t1
  if t2.isEmpty then
    match m.metadata_text? with
    | some inner => inner.getD []
    | none => t2
  else t2

/-- Step (1): metadata fields taken directly from the record, only when truthy
(lines 332-341). -/
def mdAfterFields (m : MatchDict) : MetaDict :=
  { filename := if truthy m.filename? then m.filename? else none
    document_id := if truthy m.document_id? then m.document_id? else none
    file_type := if truthy m.file_type? then m.file_type? else none
    upload_date := none
    text := none }

/-- Merging one key from the Chunk Metadata Store:
`if key not in metadata or not metadata[key]: metadata[key] = value`. -/
def mergeField (cur : Option Str) (v : Str) : Option Str :=
  if truthy cur then cur else some v

/-- Steps (1)+(2): direct fields, then the Chunk Metadata Store merge and the
`metadata['text'] = text` backfill, guarded by a truthy match id
(lines 343-351). Returns the metadata and the extracted text. -/
def mdAfterLocal (cm : List (Str × ChunkMeta)) (m : MatchDict) : MetaDict × Str :=
  let md := mdAfterFields m
  let mid := matchIdOf m
  let text := textExtract m
  if truthy mid then
    let backfill := fun (md : MetaDict) =>
      if ¬ text.isEmpty ∧ ¬ (truthy md.text = true) then { md with text := some text } else md
    match dictGet cm (mid.getD []) with
    | some cmv =>
      (backfill
        { filename := mergeField md.filename cmv.filename
          document_id := mergeField md.document_id cmv.document_id
          file_type := mergeField md.file_type cmv.file_type
          upload_date := mergeField md.upload_date cmv.upload_date
          text := mergeField md.text cmv.text }, text)
    | none => (backfill md, text)
  else (md, text)

/-- The full-metadata copy `self._chunk_metadata.get(match_id, {}).copy()`. -/
def fullMd (cmv : ChunkMeta) : MetaDict :=
  { filename := some cmv.filename
    document_id := some cmv.document_id
    file_type := some cmv.file_type
    upload_date := some cmv.upload_date
    text := some cmv.text }

/-- Lines 353-357: when no text was found, refill metadata from the store if it
is still empty and take its `text` entry. -/
def afterStepC (cm : List (Str × ChunkMeta)) (mid : Option Str)
    (md : MetaDict) (text : Str) : MetaDict × Str :=
  if text.isEmpty ∧ truthy mid = true then
    let md' := if md.isEmptyDict then
        match dictGet cm (mid.getD []) with
        | some cmv => fullMd cmv
        | none => md
      else md
    (md', md'.text.getD [])
  else (md, text)

/-- Python `sep in s`. -/
def containsSub (sep : Str) : Str → Bool
  | [] => sep.isPrefixOf []
  | c :: t => sep.isPrefixOf (c :: t) || containsSub sep t

/-- `str(match_id).split('_chunk_')[0]`: the prefix before the first
occurrence of the separator (the whole string when absent). -/
def splitFirst (sep : Str) : Str → Str
  | [] => []
  | c :: t => if sep.isPrefixOf (c :: t) then [] else c :: splitFirst sep t

/-- Step (3), lines 359-363: derive `document_id` from the chunk-id pattern. -/
def afterStepD (mid : Option Str) (md : MetaDict) : MetaDict :=
  if truthy mid = true ∧ ¬ (truthy md.document_id = true) then
    if containsSub (str "_chunk_") (mid.getD []) then
      { md with document_id := some (splitFirst (str "_chunk_") (mid.getD [])) }
    else md
  else md

/-- The metadata after steps (1)-(3), before the Document Registry fallback. -/
def mdBeforeRegistry (cm : List (Str × ChunkMeta)) (m : MatchDict) : MetaDict × Str :=
  let p1 := mdAfterLocal cm m
  let p2 := afterStepC cm (matchIdOf m) p1.1 p1.2
  (afterStepD (matchIdOf m) p2.1, p2.2)

/-- Step (4), lines 365-372: Document Registry fallback, consulted only when
`filename` is missing or empty (falsy) and a `document_id` is known. -/
def afterStepE (reg : List (Str × RegDoc)) (md : MetaDict) : MetaDict :=
  if ¬ (truthy md.filename = true) ∧ truthy md.document_id = true then
    match dictGet reg (md.document_id.getD []) with
    | some dd =>
      let md' := { md with filename := some (dd.filename.getD (str "Unknown")) }
      if ¬ (truthy md'.file_type = true) then
        { md' with file_type := some (dd.file_type.getD (str "unknown")) }
      else md'
    | none => md
  else md

/-- Lines 374-378: chunk-metadata filename fallback, taken when truthy and not
the sentinel. -/
def afterStepF (cm : List (Str × ChunkMeta)) (mid : Option Str) (md : MetaDict) : MetaDict :=
  if ¬ (truthy md.filename = true) ∧ truthy mid = true then
    match dictGet cm (mid.getD []) with
    | some cmv =>
      if ¬ cmv.filename.isEmpty ∧ cmv.filename ≠ str "unknown" then
        { md with filename := some cmv.filename }
      else md
    | none => md
  else md

/-- Lines 380-382: placeholder text embedding the match id. -/
def afterStepG (mid : Option Str) (text : Str) : Str :=
  if text.isEmpty then
    str "[Document ID: " ++ (if truthy mid then mid.getD [] else str "unknown") ++ str "]"
  else text

/-- Lines 384-395: default metadata for an empty dictionary, and the final
`filename` normalization replacing a falsy or `"unknown"` value by
`"Unknown"`. -/
def afterStepH (md : MetaDict) : MetaDict :=
  if md.isEmptyDict then
    { filename := some (str "Unknown"), document_id := some (str "unknown"),
      file_type := some (str "unknown"), upload_date := some (str ""), text := none }
  else if ¬ (truthy md.filename = true) ∨ md.filename = some (str "unknown") then
    { md with filename := some (str "Unknown") }
  else md

/-- The per-match normalization of `similarity_search` for a dict-format match
(lines 281-401): returns the `page_content` and the metadata dictionary. -/
def normalizeMatch (cm : List (Str × ChunkMeta)) (reg : List (Str × RegDoc))
    (m : MatchDict) : Str × MetaDict :=
  let mid := matchIdOf m
  let p := mdBeforeRegistry cm m
  let md4 := afterStepE reg p.1
  let md5 := afterStepF cm mid md4
  (afterStepG mid p.2, afterStepH md5)

/-! ### Response-shape probing (lines 240-280) -/

/-- The `results.result` attribute value: a dict (with optional `hits` list)
or a non-dict object (with optional `hits` attribute). -/
inductive ResultVal where
  | rdict (hits : Option (List MatchDict))
  | robj (hits : Option (List MatchDict))
deriving DecidableEq, Repr

/-- The remote search response: falsy, a dictionary (optional `result` dict,
`hits`, `matches` keys), or an attribute-bearing object (optional `result`
and `matches` attributes). -/
inductive SearchResults where
  | falsy
  | dict (result : Option (Option (List MatchDict)))
      (hits : Option (List MatchDict)) (ms : Option (List MatchDict))
  | obj (result : Option ResultVal) (ms : Option (List MatchDict))
deriving DecidableEq, Repr

/-- The chained shape probing (lines 242-278), yielding the final value of the
`matches` variable (`none` = the Python variable stayed `None`). Dictionaries
have no `result`/`matches` attributes, so phases 1, 3 and 4 are skipped for
them, and phase 2 is skipped for objects. -/
def extractMatches : SearchResults → Option (List MatchDict)
  | .falsy => none
  | .dict result hits ms =>
    match result with
    | some rhits =>
      match rhits.getD [] with
      | [] => none
      | h :: t => some (h :: t)
    | none =>
      match hits with
      | some l => some l
      | none => ms
  | .obj result ms =>
    let phase1 : Option (List MatchDict) :=
      match result with
      | some (.rdict (some l)) => some l
      | some (.robj (some l)) => some l
      | _ => none
    if phase1.getD [] ≠ [] then phase1
    else
      match ms with
      | some (h :: t) => some (h :: t)
      | _ =>
        match result with
        | some (.rdict (some (h :: t))) => some (h :: t)
        | some (.robj (some l)) => some l
        | _ => phase1

/-- `similarity_search` result conversion (lines 240-403): normalize each match
when the probed `matches` value is truthy, else return the empty list. -/
def normalizeResults (cm : List (Str × ChunkMeta)) (reg : List (Str × RegDoc))
    (r : SearchResults) : List (Str × MetaDict) :=
  match extractMatches r with
  | some l => if l.isEmpty then [] else l.map (normalizeMatch cm reg)
  | none => []

/-- C4 counterexample inputs: a match carrying the sentinel filename
`"unknown"` and a registry that knows the real filename. -/
def m0C4 : MatchDict :=
  ⟨some (str "d_chunk_0"), none, some (str "t"), none, none,
    some (str "unknown"), some (str "d"), none⟩

/-- The registry for the C4 counterexample. -/
def regC4 : List (Str × RegDoc) := [(str "d", ⟨some (str "real.pdf"), some (str "pdf")⟩)]

/-- C4: the claim as stated is false — for a match whose filename after steps
(1)-(3) equals the sentinel `"unknown"`, the Document Registry is *not*
consulted even though it holds the real filename for the match's document id:
the normalizer emits the literal `"Unknown"` instead of `"real.pdf"`. -/
theorem C4_counterexample :
    (mdBeforeRegistry [] m0C4).1.filename = some (str "unknown") ∧
    (dictGet regC4 (str "d")).isSome = true ∧
    (normalizeMatch [] regC4 m0C4).2.filename = some (str "Unknown") ∧
    some (str "Unknown") ≠ some (str "real.pdf") := by decide

/-- C4 (amended): the Document Registry is consulted only when the filename
after steps (1)-(3) is missing or empty (falsy); in that case a registry hit
with a usable filename supplies it. A filename equal to the sentinel
`"unknown"` bypasses the registry entirely and is replaced by the literal
`"Unknown"` in the final normalization step, independently of the registry
contents; and when the filename is falsy and neither the registry consultation
nor the chunk-metadata fallback changes the metadata, the final value is the
literal `"Unknown"`. -/
theorem C4_filename_fallback :
    (∀ (cm : List (Str × ChunkMeta)) (reg : List (Str × RegDoc)) (m : MatchDict)
        (did f : Str) (dd : RegDoc),
      truthy (mdBeforeRegistry cm m).1.filename = false →
      (mdBeforeRegistry cm m).1.document_id = some did →
      ¬ did.isEmpty →
      dictGet reg did = some dd →
      dd.filename = some f →
      ¬ f.isEmpty →
      f ≠ str "unknown" →
      (normalizeMatch cm reg m).2.filename = some f) ∧
    (∀ (cm : List (Str × ChunkMeta)) (reg reg' : List (Str × RegDoc)) (m : MatchDict),
      (mdBeforeRegistry cm m).1.filename = some (str "unknown") →
      (normalizeMatch cm reg m).2.filename = some (str "Unknown") ∧
      (normalizeMatch cm reg m).2.filename = (normalizeMatch cm reg' m).2.filename) ∧
    (∀ (cm : List (Str × ChunkMeta)) (reg : List (Str × RegDoc)) (m : MatchDict),
      truthy (mdBeforeRegistry cm m).1.filename = false →
      afterStepE reg (mdBeforeRegistry cm m).1 = (mdBeforeRegistry cm m).1 →
      afterStepF cm (matchIdOf m) (mdBeforeRegistry cm m).1 = (mdBeforeRegistry cm m).1 →
      (normalizeMatch cm reg m).2.filename = some (str "Unknown")) := by
  refine ⟨?_, ?_, ?_⟩
  · intro cm reg m did f dd h1 h2 h3 hreg hf hfne hfu
    have hE : (afterStepE reg (mdBeforeRegistry cm m).1).filename = some f := by
      rw [afterStepE, if_pos ⟨by simp [h1], by simp [h2, truthy, h3]⟩, h2]
      simp only [Option.getD_some, hreg, hf, Option.getD_some]
      by_cases hft : truthy { (mdBeforeRegistry cm m).1 with
          filename := some (dd.filename.getD (str "Unknown")) }.file_type = true
      · rw [if_neg (by simp [hft])]
      · rw [if_pos (by simp [hft])]
    have htr : truthy (afterStepE reg (mdBeforeRegistry cm m).1).filename = true := by
      rw [hE]
      simpa [truthy] using hfne
    have hF : afterStepF cm (matchIdOf m) (afterStepE reg (mdBeforeRegistry cm m).1)
        = afterStepE reg (mdBeforeRegistry cm m).1 := by
      rw [afterStepF, if_neg (by simp [htr])]
    show (afterStepH (afterStepF cm (matchIdOf m)
        (afterStepE reg (mdBeforeRegistry cm m).1))).filename = some f
    rw [hF, afterStepH, if_neg (by simp [MetaDict.isEmptyDict, hE])]
    have hcond : ¬(¬(truthy (afterStepE reg (mdBeforeRegistry cm m).1).filename = true)
        ∨ (afterStepE reg (mdBeforeRegistry cm m).1).filename = some (str "unknown")) := by
      rintro (hc | hc)
      · exact hc htr
      · rw [hE] at hc
        exact hfu (by simpa using hc)
    rw [if_neg hcond]
    exact hE
  · intro cm reg reg' m h
    have htr : truthy (mdBeforeRegistry cm m).1.filename = true := by
      rw [h]
      simp [truthy, str]
    have hfinal : ∀ rg : List (Str × RegDoc),
        (normalizeMatch cm rg m).2.filename = some (str "Unknown") := by
      intro rg
      have hE : afterStepE rg (mdBeforeRegistry cm m).1 = (mdBeforeRegistry cm m).1 := by
        rw [afterStepE, if_neg (by simp [htr])]
      have hF : afterStepF cm (matchIdOf m) (mdBeforeRegistry cm m).1
          = (mdBeforeRegistry cm m).1 := by
        rw [afterStepF, if_neg (by simp [htr])]
      show (afterStepH (afterStepF cm (matchIdOf m)
          (afterStepE rg (mdBeforeRegistry cm m).1))).filename = some (str "Unknown")
      rw [hE, hF, afterStepH, if_neg (by simp [MetaDict.isEmptyDict, h]),
        if_pos (Or.inr h)]
    exact ⟨hfinal reg, (hfinal reg).trans (hfinal reg').symm⟩
  · intro cm reg m h1 hE hF
    show (afterStepH (afterStepF cm (matchIdOf m)
        (afterStepE reg (mdBeforeRegistry cm m).1))).filename = some (str "Unknown")
    rw [hE, hF, afterStepH]
    by_cases hemp : (mdBeforeRegistry cm m).1.isEmptyDict = true
    · rw [if_pos hemp]
    · rw [if_neg (by simp [hemp]), if_pos (Or.inl (by simp [h1]))]

/-- C4 witness: the amended theorem's registry-consultation conjunct at a
concrete match with a missing filename and a registry hit. -/
theorem C4_filename_fallback_witness :
    (normalizeMatch [] regC4
        ⟨some (str "d_chunk_0"), none, some (str "t"), none, none,
          none, some (str "d"), none⟩).2.filename = some (str "real.pdf") :=
  C4_filename_fallback.1 [] regC4
    ⟨some (str "d_chunk_0"), none, some (str "t"), none, none, none, some (str "d"), none⟩
    (str "d") (str "real.pdf") ⟨some (str "real.pdf"), some (str "pdf")⟩
    (by decide) (by decide) (by decide) (by decide) (by decide) (by decide) (by decide)

/-- C10: whenever the shape probing extracts no usable matches (the `matches`
variable stays `None` or becomes an empty list), `similarity_search` returns
the empty document list; the probing itself is a total function of the
response, so no shape makes it raise. -/
theorem C10_unrecognized_shape (cm : List (Str × ChunkMeta)) (reg : List (Str × RegDoc))
    (r : SearchResults)
    (h : extractMatches r = none ∨ extractMatches r = some []) :
    normalizeResults cm reg r = [] := by
  rcases h with h | h <;> simp [normalizeResults, h]

/-- C10 witness: the falsy response yields the empty list, via the theorem
with its hypothesis discharged by evaluation. -/
theorem C10_unrecognized_shape_witness :
    normalizeResults [] [] SearchResults.falsy = [] :=
  C10_unrecognized_shape [] [] SearchResults.falsy (Or.inl rfl)

/-! ## Document Registry persistence (`document_registry.py`, lines 20-54)

`_save` serializes `upload_date` with `datetime.isoformat()`; `_load` parses it
back with `datetime.fromisoformat()`. The two stdlib functions are modelled
here on the exact grammar `isoformat` emits: `YYYY-MM-DDTHH:MM:SS` with a
`.ffffff` suffix when the microsecond field is non-zero. -/

/-- A Python `datetime.datetime` value (naive, as stored by the registry). -/
structure PyDateTime where
  year : Nat
  month : Nat
  day : Nat
  hour : Nat
  minute : Nat
  second : Nat
  microsecond : Nat
deriving DecidableEq, Repr

/-- The field ranges `datetime.datetime` itself enforces. -/
def PyDateTime.wf (d : PyDateTime) : Prop :=
  1 ≤ d.year ∧ d.year ≤ 9999 ∧ 1 ≤ d.month ∧ d.month ≤ 12 ∧ 1 ≤ d.day ∧ d.day ≤ 31 ∧
    d.hour ≤ 23 ∧ d.minute ≤ 59 ∧ d.second ≤ 59 ∧ d.microsecond ≤ 999999

/-- The ASCII digit character for `d < 10`. -/
def digitChar (d : Nat) : Char := Char.ofNat (48 + d)

/-- Zero-padded fixed-width decimal rendering (`%04d`, `%02d`, `%06d`). -/
def padNum : Nat → Nat → Str
  | 0, _ => []
  | k + 1, n => padNum k (n / 10) ++ [digitChar (n % 10)]

/-- `datetime.isoformat()`: `YYYY-MM-DDTHH:MM:SS[.ffffff]`. -/
def isoformat (d : PyDateTime) : Str :=
  padNum 4 d.year ++ '-' :: (padNum 2 d.month ++ '-' :: (padNum 2 d.day ++
    'T' :: (padNum 2 d.hour ++ ':' :: (padNum 2 d.minute ++ ':' :: (padNum 2 d.second ++
      (if d.microsecond = 0 then [] else '.' :: padNum 6 d.microsecond))))))

/-- Decimal value of a digit string. -/
def decodeDigits (s : Str) : Nat :=
  s.foldl (fun acc c => acc * 10 + (c.toNat - 48)) 0

/-- Read a fixed two-digit field. -/
def parse2 : Str → Option (Nat × Str)
  | c1 :: c2 :: rest =>
    if c1.isDigit && c2.isDigit then some (decodeDigits [c1, c2], rest) else none
  | _ => none

/-- Read a fixed four-digit field. -/
def parse4 : Str → Option (Nat × Str)
  | c1 :: c2 :: c3 :: c4 :: rest =>
    if c1.isDigit && c2.isDigit && c3.isDigit && c4.isDigit then
      some (decodeDigits [c1, c2, c3, c4], rest)
    else none
  | _ => none

/-- Read a fixed six-digit field. -/
def parse6 : Str → Option (Nat × Str)
  | c1 :: c2 :: c3 :: c4 :: c5 :: c6 :: rest =>
    if c1.isDigit && c2.isDigit && c3.isDigit && c4.isDigit && c5.isDigit && c6.isDigit then
      some (decodeDigits [c1, c2, c3, c4, c5, c6], rest)
    else none
  | _ => none

/-- Consume one expected separator character. -/
def expectChar (c : Char) : Str → Option Str
  | x :: rest => if x == c then some rest else none
  | _ => none

/-- `datetime.fromisoformat()` restricted to the grammar `isoformat` emits. -/
def fromisoformat (s : Str) : Option PyDateTime :=
  (parse4 s).bind fun py =>
  (expectChar '-' py.2).bind fun r1 =>
  (parse2 r1).bind fun pmo =>
  (expectChar '-' pmo.2).bind fun r2 =>
  (parse2 r2).bind fun pd =>
  (expectChar 'T' pd.2).bind fun r3 =>
  (parse2 r3).bind fun ph =>
  (expectChar ':' ph.2).bind fun r4 =>
  (parse2 r4).bind fun pmi =>
  (expectChar ':' pmi.2).bind fun r5 =>
  (parse2 r5).bind fun ps =>
  match ps.2 with
  | [] => some ⟨py.1, pmo.1, pd.1, ph.1, pmi.1, ps.1, 0⟩
  | '.' :: r =>
    (parse6 r).bind fun pf =>
    if pf.2.isEmpty then some ⟨py.1, pmo.1, pd.1, ph.1, pmi.1, ps.1, pf.1⟩ else none
  | _ => none

/-- The `upload_date` value held by a registry entry: a `datetime` object or a
string (as read back from JSON before conversion). -/
inductive DateVal where
  | dt (d : PyDateTime)
  | s (v : Str)
deriving DecidableEq, Repr

/-- One Document Registry entry (`documents.py` line 110-117 fields). -/
structure RegistryEntry where
  filename : Str
  chunks_count : Nat
  file_size : Nat
  file_type : Str
  upload_date : DateVal
  file_path : Str
deriving DecidableEq, Repr

/-- `_save`'s per-entry conversion (lines 44-48): a datetime `upload_date` is
replaced by its ISO string; all other values pass through JSON unchanged. -/
def saveEntry (e : RegistryEntry) : RegistryEntry :=
  { e with upload_date :=
      match e.upload_date with
      | .dt d => .s (isoformat d)
      | .s v => .s v }

/-- `_load`'s per-entry conversion (lines 27-33): a string `upload_date` is
parsed with `fromisoformat`, kept as a string when parsing fails. -/
def loadEntry (e : RegistryEntry) : RegistryEntry :=
  { e with upload_date :=
      match e.upload_date with
      | .s v =>
        match fromisoformat v with
        | some d => .dt d
        | none => .s v
      | .dt d => .dt d }

/-- `_save` over the whole registry dictionary. -/
def save_registry (r : List (Str × RegistryEntry)) : List (Str × RegistryEntry) :=
  r.map fun p => (p.1, saveEntry p.2)

/-- `_load` over the whole persisted dictionary. -/
def load_registry (r : List (Str × RegistryEntry)) : List (Str × RegistryEntry) :=
  r.map fun p => (p.1, loadEntry p.2)

lemma digitChar_toNat {d : Nat} (h : d < 10) : (digitChar d).toNat = 48 + d := by
  interval_cases d <;> rfl

lemma isDigit_digitChar {d : Nat} (h : d < 10) : (digitChar d).isDigit = true := by
  interval_cases d <;> rfl

lemma padNum_two (n : Nat) :
    padNum 2 n = [digitChar (n / 10 % 10), digitChar (n % 10)] := rfl

lemma padNum_four (n : Nat) :
    padNum 4 n = [digitChar (n / 10 / 10 / 10 % 10), digitChar (n / 10 / 10 % 10),
      digitChar (n / 10 % 10), digitChar (n % 10)] := rfl

lemma padNum_six (n : Nat) :
    padNum 6 n = [digitChar (n / 10 / 10 / 10 / 10 / 10 % 10),
      digitChar (n / 10 / 10 / 10 / 10 % 10), digitChar (n / 10 / 10 / 10 % 10),
      digitChar (n / 10 / 10 % 10), digitChar (n / 10 % 10), digitChar (n % 10)] := rfl

lemma expectChar_cons (c : Char) (r : Str) : expectChar c (c :: r) = some r := by
  simp [expectChar]

lemma parse2_pad (n : Nat) (h : n < 100) (rest : Str) :
    parse2 (padNum 2 n ++ rest) = some (n, rest) := by
  have h1 : n / 10 % 10 < 10 := Nat.mod_lt _ (by norm_num)
  have h2 : n % 10 < 10 := Nat.mod_lt _ (by norm_num)
  simp only [padNum_two, List.cons_append, List.nil_append, parse2,
    isDigit_digitChar h1, isDigit_digitChar h2, Bool.and_self, if_true,
    decodeDigits, List.foldl, digitChar_toNat h1, digitChar_toNat h2,
    Option.some.injEq, Prod.mk.injEq]
  exact ⟨by omega, trivial⟩

lemma parse4_pad (n : Nat) (h : n < 10000) (rest : Str) :
    parse4 (padNum 4 n ++ rest) = some (n, rest) := by
  have h1 : n / 10 / 10 / 10 % 10 < 10 := Nat.mod_lt _ (by norm_num)
  have h2 : n / 10 / 10 % 10 < 10 := Nat.mod_lt _ (by norm_num)
  have h3 : n / 10 % 10 < 10 := Nat.mod_lt _ (by norm_num)
  have h4 : n % 10 < 10 := Nat.mod_lt _ (by norm_num)
  simp only [padNum_four, List.cons_append, List.nil_append, parse4,
    isDigit_digitChar h1, isDigit_digitChar h2, isDigit_digitChar h3,
    isDigit_digitChar h4, Bool.and_self, if_true, decodeDigits, List.foldl,
    digitChar_toNat h1, digitChar_toNat h2, digitChar_toNat h3, digitChar_toNat h4,
    Option.some.injEq, Prod.mk.injEq]
  exact ⟨by omega, trivial⟩

lemma parse6_pad (n : Nat) (h : n < 1000000) (rest : Str) :
    parse6 (padNum 6 n ++ rest) = some (n, rest) := by
  have h1 : n / 10 / 10 / 10 / 10 / 10 % 10 < 10 := Nat.mod_lt _ (by norm_num)
  have h2 : n / 10 / 10 / 10 / 10 % 10 < 10 := Nat.mod_lt _ (by norm_num)
  have h3 : n / 10 / 10 / 10 % 10 < 10 := Nat.mod_lt _ (by norm_num)
  have h4 : n / 10 / 10 % 10 < 10 := Nat.mod_lt _ (by norm_num)
  have h5 : n / 10 % 10 < 10 := Nat.mod_lt _ (by norm_num)
  have h6 : n % 10 < 10 := Nat.mod_lt _ (by norm_num)
  simp only [padNum_six, List.cons_append, List.nil_append, parse6,
    isDigit_digitChar h1, isDigit_digitChar h2, isDigit_digitChar h3,
    isDigit_digitChar h4, isDigit_digitChar h5, isDigit_digitChar h6,
    Bool.and_self, if_true, decodeDigits, List.foldl,
    digitChar_toNat h1, digitChar_toNat h2, digitChar_toNat h3,
    digitChar_toNat h4, digitChar_toNat h5, digitChar_toNat h6,
    Option.some.injEq, Prod.mk.injEq]
  exact ⟨by omega, trivial⟩

/-- The ISO-8601 round trip is exact on well-formed datetimes. -/
lemma fromisoformat_isoformat (d : PyDateTime) (h : d.wf) :
    fromisoformat (isoformat d) = some d := by
  obtain ⟨hy1, hy2, hm1, hm2, hd1, hd2, hh, hmi, hs, hus⟩ := h
  rw [isoformat, fromisoformat]
  by_cases hmicro : d.microsecond = 0
  · rw [if_pos hmicro]
    rw [parse4_pad d.year (by omega), Option.some_bind, expectChar_cons, Option.some_bind,
      parse2_pad d.month (by omega), Option.some_bind, expectChar_cons, Option.some_bind,
      parse2_pad d.day (by omega), Option.some_bind, expectChar_cons, Option.some_bind,
      parse2_pad d.hour (by omega), Option.some_bind, expectChar_cons, Option.some_bind,
      parse2_pad d.minute (by omega), Option.some_bind, expectChar_cons, Option.some_bind]
    rw [parse2_pad d.second (by omega), Option.some_bind]
    rw [← hmicro]
  · rw [if_neg hmicro]
    rw [parse4_pad d.year (by omega), Option.some_bind, expectChar_cons, Option.some_bind,
      parse2_pad d.month (by omega), Option.some_bind, expectChar_cons, Option.some_bind,
      parse2_pad d.day (by omega), Option.some_bind, expectChar_cons, Option.some_bind,
      parse2_pad d.hour (by omega), Option.some_bind, expectChar_cons, Option.some_bind,
      parse2_pad d.minute (by omega), Option.some_bind, expectChar_cons, Option.some_bind,
      parse2_pad d.second (by omega), Option.some_bind]
    simp
    rw [show padNum 6 d.microsecond = padNum 6 d.microsecond ++ []
        from (List.append_nil _).symm,
      parse6_pad d.microsecond (by omega)]
    simp

/-- C8: saving the registry and reloading it preserves every entry — in
particular `filename`, `chunks_count`, `file_size`, `file_type`, and a
well-formed datetime `upload_date` survives the ISO-8601 round trip exactly. -/
theorem C8_registry_roundtrip :
    (∀ (e : RegistryEntry) (d : PyDateTime),
      e.upload_date = DateVal.dt d → d.wf → loadEntry (saveEntry e) = e) ∧
    (∀ (r : List (Str × RegistryEntry)),
      (∀ p ∈ r, ∃ d : PyDateTime, p.2.upload_date = DateVal.dt d ∧ d.wf) →
      load_registry (save_registry r) = r) := by
  have hentry : ∀ (e : RegistryEntry) (d : PyDateTime),
      e.upload_date = DateVal.dt d → d.wf → loadEntry (saveEntry e) = e := by
    intro e d hdt hwf
    rw [saveEntry, loadEntry]
    simp only [hdt, fromisoformat_isoformat d hwf]
    cases e
    simp at hdt
    simp [hdt]
  refine ⟨hentry, ?_⟩
  intro r hwf
  rw [save_registry, load_registry, List.map_map]
  conv_rhs => rw [← List.map_id r]
  apply List.map_congr_left
  intro p hp
  obtain ⟨d, hdp, hdwf⟩ := hwf p hp
  have := hentry p.2 d hdp hdwf
  simp [Function.comp, this]

/-- A concrete datetime for the C8 witness. -/
def dt0 : PyDateTime := ⟨2024, 5, 17, 12, 30, 45, 123456⟩

/-- A concrete registry entry for the C8 witness. -/
def e0 : RegistryEntry := ⟨str "a.txt", 3, 1024, str "txt", .dt dt0, str "/up/a.txt"⟩

/-- C8 witness: a concrete entry survives save-then-load unchanged, via the
theorem with its datetime hypotheses discharged by evaluation. -/
theorem C8_registry_roundtrip_witness : loadEntry (saveEntry e0) = e0 :=
  C8_registry_roundtrip.1 e0 dt0 rfl
    (by refine ⟨?_, ?_, ?_, ?_, ?_, ?_, ?_, ?_, ?_, ?_⟩ <;> decide)

end LangRag
